import Mathlib

/-!
Verification development for the elbow variational-inference library.

Tensors are modelled as lists of real numbers (matrices as lists of rows);
elementwise tensorflow operations become List.map, tf.reduce_sum becomes
List.sum, and tf.clip_by_value becomes the clip function below.  Fallible
code paths (Python exceptions) are modelled with Except / Option.
-/

noncomputable section

namespace Elbow

/-- clip models tf.clip_by_value: the value is forced into the interval
from lo to hi. -/
def clip (x lo hi : ℝ) : ℝ := min (max x lo) hi

/-! ## Density library (src/elbow/util/dists.py) -/

/-- gaussian_log_density from util/dists.py, one element, parameterized by
variance: lps = -0.5 * r*r/variance - 0.5 * log(2 pi variance). -/
def gaussian_log_density (x mean variance : ℝ) : ℝ :=
  -0.5 * ((x - mean) * (x - mean) / variance) - 0.5 * Real.log (2 * Real.pi * variance)

/-- gaussian_cross_entropy from util/dists.py:
cross = -(gaussian_log_density(mean_p, mean=mean_q, variance=variance_q)
          + (-.5 * variance_p / variance_q)). -/
def gaussian_cross_entropy (mean_p variance_p mean_q variance_q : ℝ) : ℝ :=
  -(gaussian_log_density mean_p mean_q variance_q + (-0.5 * variance_p / variance_q))

/-- bernoulli_kl from util/dists.py, one element.  In the unclipped branch the
q-side logs are computed from p (tf.log(p) and tf.log(1-p)), mirroring the
source text exactly. -/
def bernoulli_kl (p q : ℝ) (clip_finite : Bool) : ℝ :=
  if clip_finite then
    let lp := Real.log (clip p 1e-37 1.0)
    let lp1 := Real.log (clip (1.0 - p) 1e-37 1.0)
    let lq := Real.log (clip q 1e-37 1.0)
    let lq1 := Real.log (clip (1.0 - q) 1e-37 1.0)
    p * (lp - lq) + (1.0 - p) * (lp1 - lq1)
  else
    let lp := Real.log p
    let lp1 := Real.log (1.0 - p)
    let lq := Real.log p
    let lq1 := Real.log (1.0 - p)
    p * (lp - lq) + (1.0 - p) * (lp1 - lq1)

/-! ## Distribution catalog (src/elbow/elementary.py) -/

/-- ContinuousUniform._logp: log_area = reduce_sum(log(max_range - min_range));
returns -log_area.  The result argument is accepted and ignored, as in the
source. -/
def ContinuousUniform_logp (result min_range max_range : List ℝ) : ℝ :=
  -(List.zipWith (fun lo hi => Real.log (hi - lo)) min_range max_range).sum

/-- Laplace._entropy: returns 1 + reduce_sum(log(2*scale)).  The additive
constant 1 is outside the sum, so it is contributed once in total. -/
def Laplace_entropy (scale : List ℝ) : ℝ :=
  1 + (scale.map (fun s => Real.log (2 * s))).sum

/-- Gaussian._logp, one element: reduce_sum(gaussian_log_density(result,
mean, stddev=std)); variance = std*std. -/
def Gaussian_logp (result mean std : ℝ) : ℝ :=
  gaussian_log_density result mean (std * std)

/-- A posterior node as seen by the duck-typed is_gaussian test of
elementary.py: it always carries a realized sample (_sampled), and carries
mean/variance attributes exactly when the posterior is Gaussian. -/
structure QDist where
  sampled : ℝ
  gaussParams : Option (ℝ × ℝ)

/-- is_gaussian from elementary.py: true iff the node exposes mean and
variance attributes. -/
def is_gaussian (q : QDist) : Bool := q.gaussParams.isSome

/-- Gaussian._expected_logp, one element, with the std input realized as
std_sample (get_sample).  Four branches keyed on is_gaussian(q_result) and
is_gaussian(q_mean), mirroring elementary.py lines 350-361. -/
def Gaussian_expected_logp (q_result q_mean : QDist) (std_sample : ℝ) : ℝ :=
  match q_result.gaussParams, q_mean.gaussParams with
  | some (mz, vz), none =>
      -(gaussian_cross_entropy mz vz q_mean.sampled (std_sample * std_sample))
  | none, some (mm, vm) =>
      -(gaussian_cross_entropy mm vm q_result.sampled (std_sample * std_sample))
  | some (mz, vz), some (mm, vm) =>
      -(gaussian_cross_entropy mm (vm + vz) mz (std_sample * std_sample))
  | none, none =>
      Gaussian_logp q_result.sampled q_mean.sampled std_sample

/-- Reading of the spec sentence for the both-Gaussian branch of claim C1:
the closed-form Gaussian cross-entropy with combined variance Var[M] + sigma
squared, i.e. the cross-entropy of the posterior on Z against the Gaussian
whose variance folds the parameter posterior variance Var[M] into the
conditional variance. -/
def spec_expected_logp_bothGaussian (mz vz mm vm sigma : ℝ) : ℝ :=
  -(gaussian_cross_entropy mz vz mm (vm + sigma * sigma))

end Elbow

namespace Elbow

/-! ## Transform algebra (src/elbow/transforms.py)

Tensors are lists of reals, transforms act elementwise via List.map, and
tf.reduce_sum is List.sum.  Every definition keeps the default
clip_finite=True behavior of the source. -/

/-- Logit.transform: x is clipped to [-88, 88], transformed = 1/(1+exp(-x)). -/
def Logit_transform (x : List ℝ) : List ℝ :=
  x.map (fun a => 1 / (1 + Real.exp (-(clip a (-88) 88))))

/-- Logit.transform log-Jacobian: jacobian = t(1-t) clipped to [1e-45, 1e38],
log_jacobian = reduce_sum(log(jacobian)). -/
def Logit_transform_logjac (x : List ℝ) : ℝ :=
  (x.map (fun a =>
    Real.log (clip ((1 / (1 + Real.exp (-(clip a (-88) 88)))) *
      (1 - 1 / (1 + Real.exp (-(clip a (-88) 88))))) 1e-45 1e38))).sum

/-- Logit.inverse: x = log(1/transformed - 1); the return_log_jac branch
reads the name clip_finite, which is neither a parameter of the method nor
defined anywhere in scope, so it raises NameError before returning. -/
def Logit_inverse_call (y : List ℝ) (return_log_jac : Bool) :
    Except String (List ℝ) :=
  let x := y.map (fun t => Real.log (1 / t - 1))
  if return_log_jac then
    Except.error "NameError: name clip_finite is not defined"
  else
    Except.ok x

/-- Exp.transform: input clipped to [-88, 88], then exponentiated. -/
def Exp_transform (x : List ℝ) : List ℝ :=
  x.map (fun a => Real.exp (clip a (-88) 88))

/-- Exp.transform log-Jacobian: reduce_sum of the clipped input. -/
def Exp_transform_logjac (x : List ℝ) : ℝ :=
  (x.map (fun a => clip a (-88) 88)).sum

/-- Exp.inverse: input clipped to [1e-45, 1e38], then log. -/
def Exp_inverse (y : List ℝ) : List ℝ :=
  y.map (fun a => Real.log (clip a 1e-45 1e38))

/-- Exp.inverse log-Jacobian: -reduce_sum(x) where x = log(clipped input). -/
def Exp_inverse_logjac (y : List ℝ) : ℝ :=
  -(y.map (fun a => Real.log (clip a 1e-45 1e38))).sum

/-- Log1Exp.transform: y = log(1 + exp(x)) on the input clipped to [-88, 88]. -/
def Log1Exp_transform (x : List ℝ) : List ℝ :=
  x.map (fun a => Real.log (1 + Real.exp (clip a (-88) 88)))

/-- Log1Exp.transform log-Jacobian: reduce_sum(x - transformed) on the
clipped input. -/
def Log1Exp_transform_logjac (x : List ℝ) : ℝ :=
  (x.map (fun a =>
    clip a (-88) 88 - Real.log (1 + Real.exp (clip a (-88) 88)))).sum

/-- Log1Exp.inverse: x = log(exp(y) - 1) on the input clipped to
[1e-45, 1e38]. -/
def Log1Exp_inverse (y : List ℝ) : List ℝ :=
  y.map (fun a => Real.log (Real.exp (clip a 1e-45 1e38) - 1))

/-- Log1Exp.inverse log-Jacobian: reduce_sum(transformed - x) on the clipped
input. -/
def Log1Exp_inverse_logjac (y : List ℝ) : ℝ :=
  (y.map (fun a =>
    clip a 1e-45 1e38 - Real.log (Real.exp (clip a 1e-45 1e38) - 1))).sum

/-- Square.transform: tf.square(x), no clipping. -/
def Square_transform (x : List ℝ) : List ℝ :=
  x.map (fun a => a ^ 2)

/-- Square.transform log-Jacobian: reduce_sum(log(x)) + np.log(2); the log is
applied to the raw input and the log(2) term is added once in total. -/
def Square_transform_logjac (x : List ℝ) : ℝ :=
  (x.map Real.log).sum + Real.log 2

/-- Square.inverse: x = sqrt(transformed). -/
def Square_inverse (y : List ℝ) : List ℝ :=
  y.map Real.sqrt

/-- Square.inverse log-Jacobian: jacobian = 0.5/x, log_jacobian =
reduce_sum(log(jacobian)). -/
def Square_inverse_logjac (y : List ℝ) : ℝ :=
  (y.map (fun a => Real.log (0.5 / Real.sqrt a))).sum

/-- Reciprocal.transform: input clipped to [1e-38, 1e38], nlogx = -log(x),
transformed = exp(nlogx). -/
def Reciprocal_transform (x : List ℝ) : List ℝ :=
  x.map (fun a => Real.exp (-Real.log (clip a 1e-38 1e38)))

/-- Reciprocal.transform log-Jacobian: 2 * reduce_sum(nlogx). -/
def Reciprocal_transform_logjac (x : List ℝ) : ℝ :=
  2 * (x.map (fun a => -Real.log (clip a 1e-38 1e38))).sum

/-- Reciprocal is a SelfInverseTransform: inverse is transform. -/
def Reciprocal_inverse : List ℝ → List ℝ := Reciprocal_transform

/-- Reciprocal inverse log-Jacobian, via SelfInverseTransform. -/
def Reciprocal_inverse_logjac : List ℝ → ℝ := Reciprocal_transform_logjac

/-- RowNormalize.transform on a matrix: each row is divided by its sum. -/
def RowNormalize_transform (x : List (List ℝ)) : List (List ℝ) :=
  x.map (fun row => row.map (fun a => a / row.sum))

/-- RowNormalize.transform log-Jacobian: -k * reduce_sum(log(Z)) where Z
holds the row sums and k is the row length; the log is applied to the raw
row sums with no clipping. -/
def RowNormalize_transform_logjac (x : List (List ℝ)) : ℝ :=
  -((x.headD []).length : ℝ) * (x.map (fun row => Real.log row.sum)).sum

/-- Maximum of a list of reals (tf.reduce_max along a row). -/
def listMax : List ℝ → ℝ
  | [] => 0
  | a :: t => t.foldl max a

/-- Simplex_Raw = chain(Exp, RowNormalize): exponentiate elementwise (with
the default clipping of Exp) and normalize each row by its sum. -/
def Simplex_Raw_transform (x : List (List ℝ)) : List (List ℝ) :=
  RowNormalize_transform (x.map (fun row => row.map (fun a => Real.exp (clip a (-88) 88))))

/-- Simplex.transform: subtract the per-row maximum, then apply Simplex_Raw. -/
def Simplex_transform (x : List (List ℝ)) : List (List ℝ) :=
  Simplex_Raw_transform (x.map (fun row => row.map (fun a => a - listMax row)))

/-- Safe range for an argument of log, from the numeric-stability policy of
the spec: magnitudes within [1e-45, 1e38] post-exponentiation. -/
def specSafeLogArg (a : ℝ) : Prop := 1e-45 ≤ a ∧ a ≤ 1e38

/-- Safe range for an argument of exp, from the numeric-stability policy of
the spec: within plus or minus 88 in log-space. -/
def specSafeExpArg (a : ℝ) : Prop := -88 ≤ a ∧ a ≤ 88

/-! ## Generic transforms and chain_transforms (src/elbow/transforms.py) -/

/-- A transform as used by chain_transforms: forward and inverse maps that
also report a log-Jacobian, the two shape maps, and the structural flag. -/
structure Transform where
  fwd : List ℝ → List ℝ × ℝ
  inv : List ℝ → List ℝ × ℝ
  outShape : List ℕ → List ℕ
  inShape : List ℕ → List ℕ
  structural : Bool

/-- Chain.transform with return_log_jac: iterate the component transforms in
order, collecting each log-Jacobian in a list, and finally reduce_sum the
collected list. -/
def chain_transform_fwd (ts : List Transform) (x : List ℝ) : List ℝ × ℝ :=
  let r := ts.foldl (fun a t => ((t.fwd a.1).1, a.2 ++ [(t.fwd a.1).2]))
    (x, ([] : List ℝ))
  (r.1, r.2.sum)

/-- Chain.inverse with return_log_jac: iterate the component inverses over
the reversed list, collecting log-Jacobians, then reduce_sum. -/
def chain_transform_inv (ts : List Transform) (y : List ℝ) : List ℝ × ℝ :=
  let r := ts.reverse.foldl (fun a t => ((t.inv a.1).1, a.2 ++ [(t.inv a.1).2]))
    (y, ([] : List ℝ))
  (r.1, r.2.sum)

/-- Chain.is_structural: fold of the component flags (the source multiplies
truth values over the reversed component list). -/
def chain_is_structural (ts : List Transform) : Bool :=
  ts.reverse.foldl (fun b t => b && t.structural) true

/-- Chain.output_shape: thread the shape through the component output_shape
maps in order. -/
def chain_output_shape (ts : List Transform) (s : List ℕ) : List ℕ :=
  ts.foldl (fun sh t => t.outShape sh) s

/-- Chain.input_shape: thread the shape through the component input_shape
maps over the reversed list. -/
def chain_input_shape (ts : List Transform) (s : List ℕ) : List ℕ :=
  ts.reverse.foldl (fun sh t => t.inShape sh) s

/-- Sequential application in list order of a per-transform map with
log-Jacobian, accumulating the sum of stage log-Jacobians; this is the
wording of the spec for the composite forward pass. -/
def spec_apply_seq (f : Transform → List ℝ → List ℝ × ℝ) :
    List Transform → List ℝ → List ℝ × ℝ
  | [], x => (x, 0)
  | t :: ts, x => ((spec_apply_seq f ts (f t x).1).1,
      (f t x).2 + (spec_apply_seq f ts (f t x).1).2)

/-- Composition of the output-shape maps in application order, as worded in
the spec. -/
def spec_compose_out : List Transform → List ℕ → List ℕ
  | [], s => s
  | t :: ts, s => spec_compose_out ts (t.outShape s)

/-- Composition of the input-shape maps in matching (reverse) order, as
worded in the spec. -/
def spec_compose_in : List Transform → List ℕ → List ℕ
  | [], s => s
  | t :: ts, s => t.inShape (spec_compose_in ts s)

/-! ## Deterministic transform nodes (src/elbow/transforms.py) -/

/-- DeterministicTransform.attach_q always raises. -/
def DeterministicTransform_attach_q : Except String Unit :=
  Except.error "cannot attach an explicit Q distribution to a deterministic transform. attach to the parent instead!"

/-- DeterministicTransform.observe always raises. -/
def DeterministicTransform_observe : Except String Unit :=
  Except.error "cannot explicitly observe a deterministic transformed value. "

/-- A stochastic parent node, carrying an optional observed value. -/
structure RandomNode where
  observed : Option (List ℝ)

/-- Modelled from the spec: ConditionalDistribution.observe (defined in
conditional_dist.py, which is not among the provided sources) fixes the
realized value of the node to the observed value. -/
def node_observe (n : RandomNode) (v : List ℝ) : RandomNode :=
  { n with observed := some v }

/-- UnaryTransform.observe: push the observation through the inverse of the
transform and delegate it to the random parent A. -/
def UnaryTransform_observe (inverse : List ℝ → List ℝ) (parent : RandomNode)
    (observed_val : List ℝ) : RandomNode :=
  node_observe parent (inverse observed_val)

/-! ## Basic facts about clip and numeric bounds used throughout -/

lemma clip_le {x lo hi : ℝ} : clip x lo hi ≤ hi := min_le_right _ _

lemma le_clip {x lo hi : ℝ} (h : lo ≤ hi) : lo ≤ clip x lo hi :=
  le_min (le_max_right _ _) h

lemma clip_eq_self {x lo hi : ℝ} (h1 : lo ≤ x) (h2 : x ≤ hi) : clip x lo hi = x := by
  unfold clip
  rw [max_eq_left h1, min_eq_left h2]

lemma log_ten_lt : Real.log 10 < 2.3105 := by
  have h1024 : (1024 : ℝ) = 2 ^ 10 := by norm_num
  have hlog1024 : Real.log 1024 = 10 * Real.log 2 := by
    rw [h1024, Real.log_pow]; norm_num
  have hsplit : (1024 : ℝ) = 1000 * 1.024 := by norm_num
  have hmul : Real.log 1024 = Real.log 1000 + Real.log 1.024 := by
    rw [hsplit, Real.log_mul (by norm_num) (by norm_num)]
  have h1000 : Real.log 1000 = 3 * Real.log 10 := by
    have : (1000 : ℝ) = 10 ^ 3 := by norm_num
    rw [this, Real.log_pow]; norm_num
  have hpos : 0 < Real.log 1.024 := Real.log_pos (by norm_num)
  have h2 : Real.log 2 < 0.6931471808 := Real.log_two_lt_d9
  nlinarith [hlog1024, hmul, h1000, hpos, h2]

lemma log_ten_gt : 2.3024 < Real.log 10 := by
  have h1024 : (1024 : ℝ) = 2 ^ 10 := by norm_num
  have hlog1024 : Real.log 1024 = 10 * Real.log 2 := by
    rw [h1024, Real.log_pow]; norm_num
  have hsplit : (1024 : ℝ) = 1000 * 1.024 := by norm_num
  have hmul : Real.log 1024 = Real.log 1000 + Real.log 1.024 := by
    rw [hsplit, Real.log_mul (by norm_num) (by norm_num)]
  have h1000 : Real.log 1000 = 3 * Real.log 10 := by
    have : (1000 : ℝ) = 10 ^ 3 := by norm_num
    rw [this, Real.log_pow]; norm_num
  have hup : Real.log 1.024 ≤ 0.024 := by
    have := Real.log_le_sub_one_of_pos (x := 1.024) (by norm_num)
    linarith
  have h2 : 0.6931471803 < Real.log 2 := Real.log_two_gt_d9
  nlinarith [hlog1024, hmul, h1000, hup, h2]

lemma log_le_sub_one_inv {x : ℝ} (hx : 0 < x) : 1 - x⁻¹ ≤ Real.log x := by
  have h := Real.log_le_sub_one_of_pos (inv_pos.mpr hx)
  rw [Real.log_inv] at h
  linarith

lemma log_e38_lt_88 : Real.log 1e38 < 88 := by
  have h : (1e38 : ℝ) = (10 : ℝ) ^ (38 : ℕ) := by norm_num
  rw [h, Real.log_pow]
  push_cast
  nlinarith [log_ten_lt]

lemma log_e38_nonneg : 0 ≤ Real.log 1e38 := Real.log_nonneg (by norm_num)

lemma exp88_ge_e38 : (1e38 : ℝ) ≤ Real.exp 88 := by
  calc (1e38 : ℝ) = Real.exp (Real.log 1e38) := (Real.exp_log (by norm_num)).symm
    _ ≤ Real.exp 88 := Real.exp_le_exp.mpr (le_of_lt log_e38_lt_88)

lemma e39_le_exp_neg88 : (1e-39 : ℝ) ≤ Real.exp (-88) := by
  have hlog : Real.log (1e-39 : ℝ) ≤ -88 := by
    have h : (1e-39 : ℝ) = ((10 : ℝ) ^ (39 : ℕ))⁻¹ := by norm_num
    rw [h, Real.log_inv, Real.log_pow]
    push_cast
    nlinarith [log_ten_gt]
  calc (1e-39 : ℝ) = Real.exp (Real.log (1e-39 : ℝ)) := (Real.exp_log (by norm_num)).symm
    _ ≤ Real.exp (-88) := Real.exp_le_exp.mpr hlog

lemma e45_le_exp_neg88 : (1e-45 : ℝ) ≤ Real.exp (-88) :=
  le_trans (by norm_num) e39_le_exp_neg88

end Elbow

namespace Elbow

/-! ## Claim C10: bernoulli_kl with clip_finite=False -/

/-- Claim C10: with clip_finite=False, bernoulli_kl(p, q) is identically zero
and independent of q, because both q-side log terms are computed from p and
the expression cancels. -/
theorem C10_bernoulli_kl_unclipped_zero (p q qq : ℝ) :
    bernoulli_kl p q false = 0 ∧ bernoulli_kl p q false = bernoulli_kl p qq false := by
  constructor
  · simp [bernoulli_kl]
  · rfl

/-! ## Claim C9: Laplace entropy adds the constant 1 once in total -/

/-- Claim C9: for a Laplace node with n elements of common scale s, _entropy
returns 1 + n * log(2s), and the sum of per-element Laplace entropies
n * (1 + log(2s)) exceeds it by exactly n - 1. -/
theorem C9_laplace_entropy_constant_once (n : ℕ) (s : ℝ) :
    Laplace_entropy (List.replicate n s) = 1 + n * Real.log (2 * s) ∧
    (n : ℝ) * (1 + Real.log (2 * s)) - Laplace_entropy (List.replicate n s) = n - 1 := by
  have hmap : (List.replicate n s).map (fun t => Real.log (2 * t))
      = List.replicate n (Real.log (2 * s)) := by
    simp [List.map_replicate]
  have hsum : ((List.replicate n s).map (fun t => Real.log (2 * t))).sum
      = (n : ℝ) * Real.log (2 * s) := by
    rw [hmap, List.sum_replicate, nsmul_eq_mul]
  constructor
  · simp [Laplace_entropy, hsum]
  · simp [Laplace_entropy, hsum]; ring

/-! ## Claim C7: ContinuousUniform log-density is a constant -/

/-- Claim C7: ContinuousUniform._logp returns the constant negative
log-volume, independent of the result value; its density exp(logp) is
strictly positive (never the zero density of an out-of-bounds point). -/
theorem C7_uniform_logp_constant (result result2 min_range max_range : List ℝ) :
    ContinuousUniform_logp result min_range max_range
      = -(List.zipWith (fun lo hi => Real.log (hi - lo)) min_range max_range).sum ∧
    ContinuousUniform_logp result min_range max_range
      = ContinuousUniform_logp result2 min_range max_range ∧
    0 < Real.exp (ContinuousUniform_logp result min_range max_range) := by
  exact ⟨rfl, rfl, Real.exp_pos _⟩

/-! ## Claim C3: properties of chain_transforms -/

lemma chain_fold_fst (f : Transform → List ℝ → List ℝ × ℝ) (ts : List Transform)
    (x : List ℝ) (acc : List ℝ) :
    (ts.foldl (fun a t => ((f t a.1).1, a.2 ++ [(f t a.1).2])) (x, acc)).1
      = (spec_apply_seq f ts x).1 := by
  induction ts generalizing x acc with
  | nil => rfl
  | cons t ts ih =>
      simp only [List.foldl_cons, spec_apply_seq]
      exact ih (f t x).1 _

lemma chain_fold_sum (f : Transform → List ℝ → List ℝ × ℝ) (ts : List Transform)
    (x : List ℝ) (acc : List ℝ) :
    ((ts.foldl (fun a t => ((f t a.1).1, a.2 ++ [(f t a.1).2])) (x, acc)).2).sum
      = acc.sum + (spec_apply_seq f ts x).2 := by
  induction ts generalizing x acc with
  | nil => simp [spec_apply_seq]
  | cons t ts ih =>
      simp only [List.foldl_cons, spec_apply_seq]
      rw [ih (f t x).1 (acc ++ [(f t x).2])]
      simp [List.sum_append]
      ring

lemma chain_fold_and (l : List Transform) (b : Bool) :
    l.foldl (fun b t => b && t.structural) b = (b && l.all (fun t => t.structural)) := by
  induction l generalizing b with
  | nil => simp
  | cons t l ih =>
      simp only [List.foldl_cons, List.all_cons, ih (b && t.structural),
        Bool.and_assoc]

/-- Claim C3: the composite built by chain_transforms applies the component
transforms in order (summing stage log-Jacobians), applies the component
inverses in reverse order, is structural exactly when all components are,
and composes the shape maps in matching order. -/
theorem C3_chain_transforms (ts : List Transform) (x y : List ℝ) (s sh : List ℕ) :
    chain_transform_fwd ts x = spec_apply_seq (fun t => t.fwd) ts x ∧
    chain_transform_inv ts y = spec_apply_seq (fun t => t.inv) ts.reverse y ∧
    chain_is_structural ts = ts.all (fun t => t.structural) ∧
    chain_output_shape ts s = spec_compose_out ts s ∧
    chain_input_shape ts sh = spec_compose_in ts sh := by
  refine ⟨?_, ?_, ?_, ?_, ?_⟩
  · have h1 := chain_fold_fst (fun t => t.fwd) ts x []
    have h2 := chain_fold_sum (fun t => t.fwd) ts x []
    apply Prod.ext
    · exact h1
    · simpa using h2
  · have h1 := chain_fold_fst (fun t => t.inv) ts.reverse y []
    have h2 := chain_fold_sum (fun t => t.inv) ts.reverse y []
    simp only [List.sum_nil, zero_add] at h2
    exact Prod.ext h1 h2
  · rw [chain_is_structural, chain_fold_and, Bool.true_and, List.all_reverse]
  · induction ts generalizing s with
    | nil => rfl
    | cons t ts ih => exact ih (t.outShape s)
  · induction ts generalizing sh with
    | nil => rfl
    | cons t ts ih =>
        unfold chain_input_shape
        rw [List.reverse_cons, List.foldl_append]
        have hstep : List.foldl (fun sh t => t.inShape sh) sh ts.reverse
            = spec_compose_in ts sh := ih sh
        rw [hstep]
        rfl

/-! ## Claim C5: attach_q and observe on deterministic transforms -/

/-- Claim C5: attach_q and observe on a purely deterministic-transform node
both raise; observe on an invertible UnaryTransform node succeeds by pushing
the observed value through the inverse of the transform and delegating the
observation to the random parent A; concretely, observing the value 1 on a
UnaryTransform with transform Exp observes log(1) = 0 on the parent. -/
theorem C5_observe_attach_dispatch (inverse : List ℝ → List ℝ) (p : RandomNode)
    (v : List ℝ) :
    DeterministicTransform_attach_q.isOk = false ∧
    DeterministicTransform_observe.isOk = false ∧
    (UnaryTransform_observe inverse p v).observed = some (inverse v) ∧
    (UnaryTransform_observe Exp_inverse ⟨none⟩ [1]).observed = some [0] := by
  refine ⟨rfl, rfl, rfl, ?_⟩
  have hclip : clip (1 : ℝ) 1e-45 1e38 = 1 :=
    clip_eq_self (by norm_num) (by norm_num)
  simp [UnaryTransform_observe, node_observe, Exp_inverse, hclip]

/-! ## Claim C6: Simplex shift invariance -/

lemma foldl_max_add (t : List ℝ) (a c : ℝ) :
    (t.map (fun b => b + c)).foldl max (a + c) = t.foldl max a + c := by
  induction t generalizing a with
  | nil => rfl
  | cons b t ih =>
      simp only [List.map_cons, List.foldl_cons, max_add_add_right]
      exact ih (max a b)

lemma listMax_map_add (row : List ℝ) (c : ℝ) (h : row ≠ []) :
    listMax (row.map (fun b => b + c)) = listMax row + c := by
  cases row with
  | nil => exact absurd rfl h
  | cons a t =>
      simp only [List.map_cons, listMax]
      exact foldl_max_add t a c

lemma row_shift (row : List ℝ) (c : ℝ) :
    ((row.map (fun b => b + c)).map
        (fun a => a - listMax (row.map (fun b => b + c))))
      = row.map (fun a => a - listMax row) := by
  cases row with
  | nil => rfl
  | cons a0 t0 =>
      rw [listMax_map_add (a0 :: t0) c (by simp), List.map_map]
      apply List.map_congr_left
      intro b _
      simp only [Function.comp]
      ring

/-- Claim C6: Simplex.transform is exactly invariant under adding a scalar c
to every entry, because the per-row maximum is subtracted before the
Exp-then-RowNormalize chain. -/
theorem C6_simplex_shift_invariant (x : List (List ℝ)) (c : ℝ) :
    Simplex_transform (x.map (fun row => row.map (fun a => a + c)))
      = Simplex_transform x := by
  unfold Simplex_transform
  congr 1
  rw [List.map_map]
  have hfun : ∀ row ∈ x,
      ((fun row : List ℝ => row.map (fun a => a - listMax row)) ∘
        (fun row : List ℝ => row.map (fun b => b + c))) row
        = row.map (fun a => a - listMax row) := by
    intro row _
    simp only [Function.comp]
    exact row_shift row c
  exact List.map_congr_left hfun

/-! ## Claim C8: Logit.inverse log-Jacobian branch raises NameError -/

/-- Claim C8: for every input, Logit.inverse with return_log_jac=True raises
NameError (the branch reads a name clip_finite that is neither a parameter
nor in scope), while Logit.inverse without the flag returns log(1/y - 1);
concretely, at y = 0.5 it returns log(1) = 0. -/
theorem C8_logit_inverse_nameerror (y : List ℝ) :
    Logit_inverse_call y true
      = Except.error "NameError: name clip_finite is not defined" ∧
    Logit_inverse_call y false
      = Except.ok (y.map (fun t => Real.log (1 / t - 1))) ∧
    Logit_inverse_call [0.5] false = Except.ok [0] := by
  refine ⟨rfl, rfl, by norm_num [Logit_inverse_call, Real.log_one]⟩

/-! ## Claim C1: Gaussian expected-logp dispatch -/

/-- Claim C1 counterexample: with posterior on Z Gaussian with mean 0 and
variance 3, posterior on M Gaussian with mean 0 and variance 1, and sigma = 1,
the code returns the negated cross-entropy built from the combined posterior
variance Var[M] + Var[Z] = 4 against reference variance sigma squared, which
differs from the spec formula that combines Var[M] + sigma squared into the
reference variance (equality would force log 2 = 2.5). -/
theorem C1_counterexample :
    Gaussian_expected_logp ⟨0, some (0, 3)⟩ ⟨0, some (0, 1)⟩ 1
      ≠ spec_expected_logp_bothGaussian 0 3 0 1 1 := by
  intro h
  have hcode : Gaussian_expected_logp ⟨0, some (0, 3)⟩ ⟨0, some (0, 1)⟩ 1
      = -0.5 * Real.log (2 * Real.pi) - 2 := by
    simp only [Gaussian_expected_logp, gaussian_cross_entropy, gaussian_log_density]
    norm_num
    ring
  have hspec : spec_expected_logp_bothGaussian 0 3 0 1 1
      = -0.5 * Real.log (2 * Real.pi * 2) - 0.75 := by
    simp only [spec_expected_logp_bothGaussian, gaussian_cross_entropy,
      gaussian_log_density]
    norm_num
    ring
  have hsplit : Real.log (2 * Real.pi * 2) = Real.log (2 * Real.pi) + Real.log 2 := by
    rw [Real.log_mul (by positivity) (by norm_num)]
  have hlt : Real.log 2 < 0.6931471808 := Real.log_two_lt_d9
  rw [hcode, hspec, hsplit] at h
  nlinarith [h, hlt]

/-- Claim C1 amended: when both the posterior on Z and the posterior on M are
Gaussian, _expected_logp returns the negated closed-form Gaussian
cross-entropy whose combined variance is the sum of the two posterior
variances Var[M] + Var[Z], taken against the conditional variance sigma
squared; this equals the exact expectation of the Gaussian log-density with
both posterior uncertainties integrated out.  When neither posterior is
Gaussian, it returns the plain Gaussian log-density at the realized samples
of both posteriors. -/
theorem C1_expected_logp_dispatch (mz vz mm vm sz sm sigma : ℝ) :
    Gaussian_expected_logp ⟨sz, some (mz, vz)⟩ ⟨sm, some (mm, vm)⟩ sigma
      = -(gaussian_cross_entropy mm (vm + vz) mz (sigma * sigma)) ∧
    Gaussian_expected_logp ⟨sz, some (mz, vz)⟩ ⟨sm, some (mm, vm)⟩ sigma
      = -(0.5 * Real.log (2 * Real.pi * (sigma * sigma))
          + ((mz - mm) * (mz - mm) + vm + vz) / (2 * (sigma * sigma))) ∧
    Gaussian_expected_logp ⟨sz, none⟩ ⟨sm, none⟩ sigma
      = Gaussian_logp sz sm sigma := by
  refine ⟨rfl, ?_, rfl⟩
  simp only [Gaussian_expected_logp, gaussian_cross_entropy, gaussian_log_density]
  ring

/-! ## Claim C2: log-Jacobian negation identity -/

lemma sum_map_neg (l : List ℝ) (f : ℝ → ℝ) :
    (l.map (fun b => -(f b))).sum = -((l.map f).sum) := by
  induction l with
  | nil => simp
  | cons a t ih => simp [ih]; ring

lemma exp_roundtrip (b : ℝ) (hb : b ≤ Real.log 1e38) :
    Real.log (clip (Real.exp (clip b (-88) 88)) 1e-45 1e38) = clip b (-88) 88 := by
  have h1 : clip b (-88) 88 ≤ Real.log 1e38 := by
    have hm : clip b (-88) 88 ≤ max b (-88) := min_le_left _ _
    have h2 : max b (-88) ≤ Real.log 1e38 :=
      max_le hb (by linarith [log_e38_nonneg])
    linarith
  have hlow : (1e-45 : ℝ) ≤ Real.exp (clip b (-88) 88) := by
    have := Real.exp_le_exp.mpr (le_clip (by norm_num : (-88:ℝ) ≤ 88) (x := b))
    linarith [e45_le_exp_neg88]
  have hhigh : Real.exp (clip b (-88) 88) ≤ 1e38 := by
    calc Real.exp (clip b (-88) 88) ≤ Real.exp (Real.log 1e38) :=
          Real.exp_le_exp.mpr h1
      _ = 1e38 := Real.exp_log (by norm_num)
  rw [clip_eq_self hlow hhigh, Real.log_exp]

lemma log1exp_y_clip (b : ℝ) :
    clip (Real.log (1 + Real.exp (clip b (-88) 88))) 1e-45 1e38
      = Real.log (1 + Real.exp (clip b (-88) 88)) := by
  have hexp_low : Real.exp (-88) ≤ Real.exp (clip b (-88) 88) :=
    Real.exp_le_exp.mpr (le_clip (by norm_num))
  have hexp_high : Real.exp (clip b (-88) 88) ≤ Real.exp 88 :=
    Real.exp_le_exp.mpr (clip_le)
  have hlow : (1e-45 : ℝ) ≤ Real.log (1 + Real.exp (clip b (-88) 88)) := by
    have h1 : (1 : ℝ) + 1e-39 ≤ 1 + Real.exp (clip b (-88) 88) := by
      linarith [e39_le_exp_neg88]
    have h2 : Real.log (1 + 1e-39) ≤ Real.log (1 + Real.exp (clip b (-88) 88)) :=
      Real.log_le_log (by norm_num) h1
    have h3 : 1 - ((1 : ℝ) + 1e-39)⁻¹ ≤ Real.log (1 + 1e-39) :=
      log_le_sub_one_inv (by norm_num)
    have h4 : (1e-45 : ℝ) ≤ 1 - ((1 : ℝ) + 1e-39)⁻¹ := by norm_num
    linarith
  have hhigh : Real.log (1 + Real.exp (clip b (-88) 88)) ≤ 1e38 := by
    have h1 : (1 : ℝ) + Real.exp (clip b (-88) 88) ≤ 2 * Real.exp 88 := by
      have : (1 : ℝ) ≤ Real.exp 88 := by
        calc (1 : ℝ) = Real.exp 0 := Real.exp_zero.symm
          _ ≤ Real.exp 88 := Real.exp_le_exp.mpr (by norm_num)
      linarith
    have h2 : Real.log (1 + Real.exp (clip b (-88) 88)) ≤ Real.log (2 * Real.exp 88) :=
      Real.log_le_log (by positivity) h1
    have h3 : Real.log (2 * Real.exp 88) = Real.log 2 + 88 := by
      rw [Real.log_mul (by norm_num) (Real.exp_ne_zero 88), Real.log_exp]
    have h4 : Real.log 2 < 0.6931471808 := Real.log_two_lt_d9
    linarith
  exact clip_eq_self hlow hhigh

lemma log1exp_x_roundtrip (b : ℝ) :
    Real.log (Real.exp (Real.log (1 + Real.exp (clip b (-88) 88))) - 1)
      = clip b (-88) 88 := by
  rw [Real.exp_log (by positivity)]
  simp [Real.log_exp]

lemma reciprocal_roundtrip (b : ℝ) :
    -Real.log (clip (Real.exp (-Real.log (clip b 1e-38 1e38))) 1e-38 1e38)
      = Real.log (clip b 1e-38 1e38) := by
  have hpos : (0 : ℝ) < clip b 1e-38 1e38 :=
    lt_of_lt_of_le (by norm_num) (le_clip (by norm_num))
  have hval : Real.exp (-Real.log (clip b 1e-38 1e38)) = (clip b 1e-38 1e38)⁻¹ := by
    rw [Real.exp_neg, Real.exp_log hpos]
  have hlow : (1e-38 : ℝ) ≤ (clip b 1e-38 1e38)⁻¹ := by
    have h1 : clip b 1e-38 1e38 ≤ 1e38 := clip_le
    have h2 := inv_anti₀ hpos h1
    calc (1e-38 : ℝ) = ((1e38 : ℝ))⁻¹ := by norm_num
      _ ≤ (clip b 1e-38 1e38)⁻¹ := h2
  have hhigh : (clip b 1e-38 1e38)⁻¹ ≤ 1e38 := by
    have h1 : (1e-38 : ℝ) ≤ clip b 1e-38 1e38 := le_clip (by norm_num)
    have h2 := inv_anti₀ (by norm_num : (0:ℝ) < 1e-38) h1
    calc (clip b 1e-38 1e38)⁻¹ ≤ ((1e-38 : ℝ))⁻¹ := h2
      _ = 1e38 := by norm_num
  rw [hval, clip_eq_self hlow hhigh, Real.log_inv, neg_neg]

/-- Claim C2 counterexample: the negation identity between forward and
inverse log-Jacobians fails for three of the five named transforms at
concrete inputs.  Logit.inverse with return_log_jac=True raises NameError
instead of returning a value; Square at the two-element input [1, 1] reports
forward log-Jacobian log(2) but inverse log-Jacobian -2 log(2), because the
log(2) term of the forward pass is added once instead of once per element;
Exp at [88] reports forward log-Jacobian 88, but exp(88) exceeds the upper
clip bound 1e38 of the inverse, whose log-Jacobian is then -log(1e38), not
-88. -/
theorem C2_counterexample :
    Logit_inverse_call (Logit_transform [0]) true
      = Except.error "NameError: name clip_finite is not defined" ∧
    Square_inverse_logjac (Square_transform [1, 1])
      ≠ -(Square_transform_logjac [1, 1]) ∧
    Exp_inverse_logjac (Exp_transform [88]) ≠ -(Exp_transform_logjac [88]) := by
  refine ⟨rfl, ?_, ?_⟩
  · intro h
    have hsq : Square_transform [1, 1] = [1, 1] := by
      simp [Square_transform]
    rw [hsq] at h
    have hL : Square_inverse_logjac [1, 1] = -(2 * Real.log 2) := by
      simp [Square_inverse_logjac]
      rw [show (0.5 : ℝ) = 2⁻¹ by norm_num, Real.log_inv]
      ring
    have hR : -(Square_transform_logjac [1, 1]) = -Real.log 2 := by
      simp [Square_transform_logjac, Real.log_one]
    rw [hL, hR] at h
    have := Real.log_two_gt_d9
    nlinarith [h, this]
  · intro h
    have hT : Exp_transform [88] = [Real.exp 88] := by
      simp [Exp_transform, clip_eq_self (by norm_num : (-88:ℝ) ≤ 88) (le_refl (88:ℝ))]
    rw [hT] at h
    have hclip : clip (Real.exp 88) 1e-45 1e38 = 1e38 := by
      unfold clip
      rw [max_eq_left (le_trans (by norm_num) exp88_ge_e38),
        min_eq_right exp88_ge_e38]
    have hL : Exp_inverse_logjac [Real.exp 88] = -Real.log 1e38 := by
      simp [Exp_inverse_logjac, hclip]
    have hR : -(Exp_transform_logjac [88]) = -88 := by
      simp [Exp_transform_logjac,
        clip_eq_self (by norm_num : (-88:ℝ) ≤ 88) (le_refl (88:ℝ))]
    rw [hL, hR] at h
    have := log_e38_lt_88
    nlinarith [h, this]

/-- Claim C2 amended: the log-Jacobian reported by the forward transform at
x equals the negation of the log-Jacobian reported by the inverse at
transform(x) for Log1Exp and Reciprocal on every input, for Exp on inputs
whose entries stay at most log(1e38) (so that the forward output is inside
the clip bounds of the inverse), and for Square on single-element positive
inputs (the log(2) term of its forward log-Jacobian is added once in total,
matching the per-element inverse only when there is exactly one element);
Logit is excluded because its inverse log-Jacobian path raises NameError. -/
theorem C2_logjac_negation (w x z : List ℝ) (a : ℝ)
    (hx : ∀ b ∈ x, b ≤ Real.log 1e38) (ha : 0 < a) :
    Log1Exp_inverse_logjac (Log1Exp_transform w) = -(Log1Exp_transform_logjac w) ∧
    Reciprocal_inverse_logjac (Reciprocal_transform z)
      = -(Reciprocal_transform_logjac z) ∧
    Exp_inverse_logjac (Exp_transform x) = -(Exp_transform_logjac x) ∧
    Square_inverse_logjac (Square_transform [a])
      = -(Square_transform_logjac [a]) := by
  refine ⟨?_, ?_, ?_, ?_⟩
  · rw [Log1Exp_inverse_logjac, Log1Exp_transform, List.map_map]
    have hcong : w.map ((fun a => clip a 1e-45 1e38
        - Real.log (Real.exp (clip a 1e-45 1e38) - 1)) ∘
        (fun a => Real.log (1 + Real.exp (clip a (-88) 88))))
        = w.map (fun b => -((fun b => clip b (-88) 88
            - Real.log (1 + Real.exp (clip b (-88) 88))) b)) := by
      apply List.map_congr_left
      intro b _
      simp only [Function.comp]
      rw [log1exp_y_clip b]
      rw [log1exp_x_roundtrip b]
      ring
    rw [hcong, sum_map_neg]
    rw [Log1Exp_transform_logjac]
  · rw [Reciprocal_inverse_logjac, Reciprocal_transform_logjac,
      Reciprocal_transform, List.map_map]
    have hcong : z.map ((fun a => -Real.log (clip a 1e-38 1e38)) ∘
        (fun a => Real.exp (-Real.log (clip a 1e-38 1e38))))
        = z.map (fun b => -((fun b => -Real.log (clip b 1e-38 1e38)) b)) := by
      apply List.map_congr_left
      intro b _
      simp only [Function.comp]
      rw [reciprocal_roundtrip b]
      ring
    rw [show Reciprocal_transform_logjac
        = fun x : List ℝ => 2 * (x.map (fun a => -Real.log (clip a 1e-38 1e38))).sum
        from rfl]
    simp only []
    rw [hcong, sum_map_neg]
    ring
  · rw [Exp_inverse_logjac, Exp_transform, List.map_map]
    have hcong : x.map ((fun a => Real.log (clip a 1e-45 1e38)) ∘
        (fun a => Real.exp (clip a (-88) 88)))
        = x.map (fun b => clip b (-88) 88) := by
      apply List.map_congr_left
      intro b hb
      simp only [Function.comp]
      exact exp_roundtrip b (hx b hb)
    rw [hcong, Exp_transform_logjac]
  · have hel : Real.log (0.5 / Real.sqrt (a ^ 2)) = -(Real.log a + Real.log 2) := by
      rw [Real.sqrt_sq (le_of_lt ha)]
      have h1 : (0.5 : ℝ) / a = (2 * a)⁻¹ := by
        rw [div_eq_mul_inv, mul_inv]
        norm_num
      rw [h1, Real.log_inv, Real.log_mul (by norm_num) (ne_of_gt ha)]
      ring
    simp [Square_inverse_logjac, Square_transform, Square_transform_logjac, hel]

/-- Claim C2 witness: the amended identity instantiated at the inputs
[0], [0], [1] and the scalar 1. -/
theorem C2_logjac_negation_witness :
    (∀ b ∈ [(0 : ℝ)], b ≤ Real.log 1e38) ∧ (0 : ℝ) < 1 ∧
    (Log1Exp_inverse_logjac (Log1Exp_transform [0])
        = -(Log1Exp_transform_logjac [0]) ∧
      Reciprocal_inverse_logjac (Reciprocal_transform [1])
        = -(Reciprocal_transform_logjac [1]) ∧
      Exp_inverse_logjac (Exp_transform [0]) = -(Exp_transform_logjac [0]) ∧
      Square_inverse_logjac (Square_transform [1])
        = -(Square_transform_logjac [1])) := by
  have hmem : ∀ b ∈ [(0 : ℝ)], b ≤ Real.log 1e38 := by
    intro b hb
    simp only [List.mem_singleton] at hb
    rw [hb]
    exact log_e38_nonneg
  exact ⟨hmem, by norm_num, C2_logjac_negation [0] [0] [1] 1 hmem (by norm_num)⟩

/-! ## Claim C4: clipping before exp and log -/

/-- Claim C4 counterexample: not every transform that applies exp or log
clips its input to the safe range.  The log-Jacobian of Square applies log
to the raw input, so at the finite input [0] the value 0 reaches log (a
non-finite -inf at run time), outside the safe range of the spec; the
log-Jacobian of RowNormalize likewise applies log to the raw row sum (0 for
the row [0, 0]); and Logit.inverse applies log to the unclipped quantity
1/y - 1, which is 0 at y = 1. -/
theorem C4_counterexample :
    Square_transform_logjac [0] = Real.log 0 + Real.log 2 ∧
    ¬ specSafeLogArg 0 ∧
    RowNormalize_transform_logjac [[0, 0]] = -2 * Real.log 0 ∧
    Logit_inverse_call [1] false = Except.ok [Real.log 0] := by
  refine ⟨by simp [Square_transform_logjac], by norm_num [specSafeLogArg], ?_, ?_⟩
  · simp [RowNormalize_transform_logjac]
  · simp [Logit_inverse_call]

lemma reciprocal_val_bounds (b : ℝ) :
    1e-38 ≤ Real.exp (-Real.log (clip b 1e-38 1e38)) ∧
    Real.exp (-Real.log (clip b 1e-38 1e38)) ≤ 1e38 := by
  have hpos : (0 : ℝ) < clip b 1e-38 1e38 :=
    lt_of_lt_of_le (by norm_num) (le_clip (by norm_num))
  have hval : Real.exp (-Real.log (clip b 1e-38 1e38)) = (clip b 1e-38 1e38)⁻¹ := by
    rw [Real.exp_neg, Real.exp_log hpos]
  constructor
  · rw [hval]
    calc (1e-38 : ℝ) = ((1e38 : ℝ))⁻¹ := by norm_num
      _ ≤ (clip b 1e-38 1e38)⁻¹ := inv_anti₀ hpos clip_le
  · rw [hval]
    calc (clip b 1e-38 1e38)⁻¹ ≤ ((1e-38 : ℝ))⁻¹ :=
          inv_anti₀ (by norm_num) (le_clip (by norm_num))
      _ = 1e38 := by norm_num

/-- Claim C4 amended: the transforms that do clip by default — Exp (both
directions), Logit.transform, Log1Exp, and Reciprocal (whose clip range is
[1e-38, 1e38] rather than [1e-45, 1e38]) — produce outputs confined to
fixed finite ranges on every real input; but the log-Jacobian computations
of Square and RowNormalize and the map of Logit.inverse apply log to
unclipped values, as the counterexample records. -/
theorem C4_clipped_transforms_bounded (x : List ℝ) :
    (∀ v ∈ Exp_transform x, Real.exp (-88) ≤ v ∧ v ≤ Real.exp 88) ∧
    (∀ v ∈ Exp_inverse x, Real.log 1e-45 ≤ v ∧ v ≤ Real.log 1e38) ∧
    (∀ v ∈ Logit_transform x, 0 < v ∧ v < 1) ∧
    (∀ v ∈ Log1Exp_transform x, 0 < v ∧ v ≤ 89) ∧
    (∀ v ∈ Reciprocal_transform x, 1e-38 ≤ v ∧ v ≤ 1e38) := by
  refine ⟨?_, ?_, ?_, ?_, ?_⟩
  · intro v hv
    rcases List.mem_map.mp hv with ⟨b, _, rfl⟩
    exact ⟨Real.exp_le_exp.mpr (le_clip (by norm_num)),
      Real.exp_le_exp.mpr clip_le⟩
  · intro v hv
    rcases List.mem_map.mp hv with ⟨b, _, rfl⟩
    have hpos : (0 : ℝ) < clip b 1e-45 1e38 :=
      lt_of_lt_of_le (by norm_num) (le_clip (by norm_num))
    exact ⟨Real.log_le_log (by norm_num) (le_clip (by norm_num)),
      Real.log_le_log hpos clip_le⟩
  · intro v hv
    rcases List.mem_map.mp hv with ⟨b, _, rfl⟩
    have hd : (0 : ℝ) < 1 + Real.exp (-(clip b (-88) 88)) := by positivity
    constructor
    · positivity
    · rw [div_lt_one hd]
      linarith [Real.exp_pos (-(clip b (-88) 88))]
  · intro v hv
    rcases List.mem_map.mp hv with ⟨b, _, rfl⟩
    constructor
    · exact Real.log_pos (by linarith [Real.exp_pos (clip b (-88) 88)])
    · have h1 : (1 : ℝ) + Real.exp (clip b (-88) 88) ≤ 2 * Real.exp 88 := by
        have hle : Real.exp (clip b (-88) 88) ≤ Real.exp 88 :=
          Real.exp_le_exp.mpr clip_le
        have hone : (1 : ℝ) ≤ Real.exp 88 := by
          calc (1 : ℝ) = Real.exp 0 := Real.exp_zero.symm
            _ ≤ Real.exp 88 := Real.exp_le_exp.mpr (by norm_num)
        linarith
      have h2 : Real.log (1 + Real.exp (clip b (-88) 88))
          ≤ Real.log (2 * Real.exp 88) := Real.log_le_log (by positivity) h1
      have h3 : Real.log (2 * Real.exp 88) = Real.log 2 + 88 := by
        rw [Real.log_mul (by norm_num) (Real.exp_ne_zero 88), Real.log_exp]
      have h4 : Real.log 2 < 0.6931471808 := Real.log_two_lt_d9
      linarith
  · intro v hv
    rcases List.mem_map.mp hv with ⟨b, _, rfl⟩
    exact reciprocal_val_bounds b

/-- Claim C4 witness: the bound on the Exp forward output instantiated at
the input [0]. -/
theorem C4_clipped_transforms_bounded_witness :
    Real.exp (clip 0 (-88) 88) ∈ Exp_transform [0] ∧
    (Real.exp (-88) ≤ Real.exp (clip 0 (-88) 88) ∧
      Real.exp (clip 0 (-88) 88) ≤ Real.exp 88) :=
  ⟨by simp [Exp_transform],
    (C4_clipped_transforms_bounded [0]).1 _ (by simp [Exp_transform])⟩

end Elbow

end
